import Mathlib

/-!
Verification of the minimalist-todo habit-counter app (src/src/App.tsx).

The core of the program is embedded shallowly:
* local instants are modelled at day granularity as `Int` day numbers
  (days since 1970-01-01 in the host's local calendar; 1970-01-01 is a
  Thursday); the date helpers read only the local year/month/day of
  their argument, except that `getISOWeek` also subtracts `getTime()`
  values of two local midnights, which depend on the host's UTC offset
  at those midnights; the general host is therefore modelled by
  `getISOWeekTZ`, parametrised by the offset at each local midnight,
  and `getISOWeek` is its fixed-offset special case (proved below);
* JS `Date` civil-calendar conversions are modelled by the standard
  proleptic-Gregorian conversion algorithms `daysFromCivil` /
  `civilFromDays` (Euclidean division, which agrees with `Math.floor`
  division for positive divisors);
* JS numbers holding counts/targets are modelled as `Int` (the program
  only ever stores integral values in them);
* React state updates are modelled as pure state-passing on `AppState`;
  `rollover` composes the two `setState` calls of the source, both of
  which read the pre-invocation item list (the source captures `items`
  in the closure for boundary detection and completeness, and the item
  reset map does not depend on the streak update).
-/

namespace MHC

/-- The three period kinds (`PERIODS` in the source). -/
inductive Period
  | daily
  | weekly
  | monthly
deriving DecidableEq, Repr

/-- The `Item` record of the source (a counter). -/
structure Item where
  id : String
  title : String
  period : Period
  count : Int
  target : Int
  periodKey : String
  streak : Int
  bestStreak : Int
deriving DecidableEq, Repr

/-- The `SectionStreaks` record of the source. -/
structure SectionStreaks where
  daily : Int
  weekly : Int
  monthly : Int
  bestDaily : Int
  bestWeekly : Int
  bestMonthly : Int
deriving DecidableEq, Repr

/-- The `current` streak field of a kind (the source accesses the fields
`daily`/`weekly`/`monthly` directly). -/
def SectionStreaks.cur (s : SectionStreaks) : Period → Int
  | .daily => s.daily
  | .weekly => s.weekly
  | .monthly => s.monthly

/-- The `best` streak field of a kind (the source accesses the fields
`bestDaily`/`bestWeekly`/`bestMonthly` directly). -/
def SectionStreaks.best (s : SectionStreaks) : Period → Int
  | .daily => s.bestDaily
  | .weekly => s.bestWeekly
  | .monthly => s.bestMonthly

/-- The state owned by the main component: the counter collection and the
section-streak record. -/
structure AppState where
  items : List Item
  streaks : SectionStreaks
deriving DecidableEq, Repr

/-! ### Date helpers (source lines 46-87) -/

/-- Days from a proleptic-Gregorian civil date (Howard Hinnant's
`days_from_civil`); this is how JS `Date` maps a local civil date to a
linear day count. -/
def daysFromCivil (y m d : Int) : Int :=
  let y' := if m ≤ 2 then y - 1 else y
  let era := y' / 400
  let yoe := y' - era * 400
  let mp := (m + 9) % 12
  let doy := (153 * mp + 2) / 5 + d - 1
  let doe := yoe * 365 + yoe / 4 - yoe / 100 + doy
  era * 146097 + doe - 719468

/-- Civil date (year, month, day) from a day number (Howard Hinnant's
`civil_from_days`); models JS `getFullYear`/`getMonth`+1/`getDate`. -/
def civilFromDays (z0 : Int) : Int × Int × Int :=
  let z := z0 + 719468
  let era := z / 146097
  let doe := z - era * 146097
  let yoe := (doe - doe / 1460 + doe / 36524 - doe / 146096) / 365
  let y := yoe + era * 400
  let doy := doe - (365 * yoe + yoe / 4 - yoe / 100)
  let mp := (5 * doy + 2) / 153
  let d := doy - (153 * mp + 2) / 5 + 1
  let m := mp + (if mp < 10 then 3 else -9)
  (if m ≤ 2 then y + 1 else y, m, d)

/-- JS `Date.getDay` (Sun=0 .. Sat=6) of a day number; day 0
(1970-01-01) is a Thursday. -/
def getDay (n : Int) : Int := (n + 4) % 7

/-- `pad` (source line 46). -/
def pad (n : Int) : String := if n < 10 then "0" ++ toString n else toString n

/-- `getISODate` (source line 50): the daily key `YYYY-MM-DD`. -/
def getISODate (n : Int) : String :=
  let c := civilFromDays n
  toString c.1 ++ "-" ++ pad c.2.1 ++ "-" ++ pad c.2.2

/-- `getISOWeek` (source lines 55-72) on a general host.  The source
computes `days = Math.floor((date.getTime() - yearStart.getTime()) /
86400000) + 1` on two local midnights, and `getTime()` of the local
midnight of day `n` is `n * 86400000 - offset n`, where `offset n` is
the host's UTC offset (in ms, positive east of UTC) at that midnight.
When the offsets at the two midnights differ — a DST change between
Jan 1 and the week's Thursday — the flooring changes `days` by the
offset difference's sign, so this parametrised form is the faithful
embedding; `getISOWeek` below is its fixed-offset special case. -/
def getISOWeekTZ (offset : Int → Int) (n : Int) : String :=
  let day0 := getDay n
  let day := if day0 = 0 then 7 else day0
  let t := n + (4 - day)
  let ty := (civilFromDays t).1
  let yearStart := daysFromCivil ty 1 1
  let days := ((t * 86400000 - offset t) - (yearStart * 86400000 - offset yearStart)) / 86400000 + 1
  let weekNo := (days + 6) / 7
  toString ty ++ "-W" ++ toString weekNo

/-- `getISOWeek` (source lines 55-72) on a host whose UTC offset is the
same at every local midnight (no DST): the timestamp difference is then
exactly the day difference, and this definition is proved equal to
`getISOWeekTZ` with a constant offset (`getISOWeekTZ_const` below).
DST-observing hosts are modelled by `getISOWeekTZ` directly. -/
def getISOWeek (n : Int) : String :=
  let day0 := getDay n
  let day := if day0 = 0 then 7 else day0
  let t := n + (4 - day)
  let ty := (civilFromDays t).1
  let yearStart := daysFromCivil ty 1 1
  let days := (t - yearStart) + 1
  let weekNo := (days + 6) / 7
  toString ty ++ "-W" ++ toString weekNo

/-- The UTC offset (ms) of Europe/Berlin at the local midnight of day
`n` during 2026: CET (+1h) until the change on 2026-03-29 at 02:00
local (so midnights up to and including 2026-03-29 are CET), CEST (+2h)
from the midnight of 2026-03-30 up to and including 2026-10-25 (the
change back happens at 03:00 local that day), CET again afterwards. -/
def berlinOffset2026 (n : Int) : Int :=
  if daysFromCivil 2026 3 30 ≤ n ∧ n ≤ daysFromCivil 2026 10 25 then 7200000 else 3600000

/-- `getMonthKey` (source line 74): the monthly key `YYYY-MM`. -/
def getMonthKey (n : Int) : String :=
  let c := civilFromDays n
  toString c.1 ++ "-" ++ pad c.2.1

/-- `periodKey` (source lines 78-87). -/
def periodKey (p : Period) (now : Int) : String :=
  match p with
  | .daily => getISODate now
  | .weekly => getISOWeek now
  | .monthly => getMonthKey now

/-! ### Loading persisted state (source lines 106-181) -/

/-- A decoded item record as read back from storage before the
normalisation in `loadItems` (source lines 111-118): `periodKey`,
`streak` and `bestStreak` may be absent; `count` and `target` hold the
numeric values produced by `Number(..) || 0` / `Number(..) || 1`. -/
structure RawItem where
  id : String
  title : String
  period : Period
  count : Int
  target : Int
  periodKey : Option String
  streak : Option Int
  bestStreak : Option Int
deriving DecidableEq, Repr

/-- The normalisation `loadItems` applies to a stored v3 item array
(source lines 110-118). -/
def loadItemsV3 (now : Int) (arr : List RawItem) : List Item :=
  arr.map fun it =>
    { id := it.id
      title := it.title
      period := it.period
      periodKey := it.periodKey.getD (periodKey it.period now)
      count := max 0 it.count
      target := max 1 it.target
      streak := it.streak.getD 0
      bestStreak := it.bestStreak.getD 0 }

/-- A decoded section-streak record as read back from storage; every
field may be absent (source lines 169-177 default each with `?? 0`). -/
structure RawStreaks where
  daily : Option Int
  weekly : Option Int
  monthly : Option Int
  bestDaily : Option Int
  bestWeekly : Option Int
  bestMonthly : Option Int
deriving DecidableEq, Repr

/-- Stored current-streak field of a kind in a raw record. -/
def RawStreaks.cur (r : RawStreaks) : Period → Option Int
  | .daily => r.daily
  | .weekly => r.weekly
  | .monthly => r.monthly

/-- Stored best-streak field of a kind in a raw record. -/
def RawStreaks.best (r : RawStreaks) : Period → Option Int
  | .daily => r.bestDaily
  | .weekly => r.bestWeekly
  | .monthly => r.bestMonthly

/-- `loadSectionStreaks` on a successfully parsed record
(source lines 169-177). -/
def loadSectionStreaks (r : RawStreaks) : SectionStreaks :=
  { daily := r.daily.getD 0
    weekly := r.weekly.getD 0
    monthly := r.monthly.getD 0
    bestDaily := r.bestDaily.getD 0
    bestWeekly := r.bestWeekly.getD 0
    bestMonthly := r.bestMonthly.getD 0 }

/-! ### Rollover engine (source lines 323-372) -/

/-- Boundary detection for one kind (source lines 326-328): some counter
of that kind has a stale period key. -/
def boundaryB (p : Period) (now : Int) (items : List Item) : Bool :=
  items.any fun i => i.period == p && periodKey p now != i.periodKey

/-- `allDone` (source lines 333-337): the kind's group is non-empty and
every member's count reached `max 1 target`, evaluated on the given
(pre-reset) item list. -/
def allDone (p : Period) (items : List Item) : Bool :=
  let list := items.filter fun i => i.period == p
  !list.isEmpty && list.all fun i => decide (max 1 i.target ≤ i.count)

/-- The per-item reset of source lines 362-368: an item whose stored key
differs from the freshly computed current key is reset to count 0 with
the current key; otherwise it is returned unchanged. -/
def resetStale (now : Int) (it : Item) : Item :=
  let currentKey := periodKey it.period now
  if currentKey ≠ it.periodKey then { it with periodKey := currentKey, count := 0 } else it

/-- `rollover` (source lines 323-372), with the two `setState` calls
composed into one pure state transition. -/
def rollover (now : Int) (s : AppState) : AppState :=
  let items := s.items
  let boundaryDaily := boundaryB .daily now items
  let boundaryWeekly := boundaryB .weekly now items
  let boundaryMonthly := boundaryB .monthly now items
  if !boundaryDaily && !boundaryWeekly && !boundaryMonthly then s
  else
    let endedDailyDone := boundaryDaily && allDone .daily items
    let endedWeeklyDone := boundaryWeekly && allDone .weekly items
    let endedMonthlyDone := boundaryMonthly && allDone .monthly items
    let ss := s.streaks
    let daily := if boundaryDaily then (if endedDailyDone then ss.daily + 1 else 0) else ss.daily
    let bestDaily := if boundaryDaily then max ss.bestDaily daily else ss.bestDaily
    let weekly := if boundaryWeekly then (if endedWeeklyDone then ss.weekly + 1 else 0) else ss.weekly
    let bestWeekly := if boundaryWeekly then max ss.bestWeekly weekly else ss.bestWeekly
    let monthly := if boundaryMonthly then (if endedMonthlyDone then ss.monthly + 1 else 0) else ss.monthly
    let bestMonthly := if boundaryMonthly then max ss.bestMonthly monthly else ss.bestMonthly
    { items := items.map (resetStale now)
      streaks := { daily := daily, weekly := weekly, monthly := monthly,
                   bestDaily := bestDaily, bestWeekly := bestWeekly, bestMonthly := bestMonthly } }

/-! ### Counter-store operations (source lines 405-439, 575-592) -/

/-- `updateItem` (source lines 423-425). -/
def updateItem (items : List Item) (id : String) (patch : Item → Item) : List Item :=
  items.map fun i => if i.id == id then patch i else i

/-- `increment` (source lines 427-432); on an id with no matching item it
returns the collection unchanged (the early `return`). -/
def increment (items : List Item) (id : String) : List Item :=
  match items.find? fun i => i.id == id with
  | none => items
  | some it =>
    let next := min (it.count + 1) (max 1 it.target)
    updateItem items id fun i => { i with count := next }

/-- `decrement` (source lines 434-439). -/
def decrement (items : List Item) (id : String) : List Item :=
  match items.find? fun i => i.id == id with
  | none => items
  | some it =>
    let next := max 0 (it.count - 1)
    updateItem items id fun i => { i with count := next }

/-- The "Set count" action (source lines 575-579); `n0` is the
already-floored numeric value of the prompt (`Math.floor(Number(val) || 0)`).
The item the card has in scope is recovered by `find?`. -/
def setCount (items : List Item) (id : String) (n0 : Int) : List Item :=
  match items.find? fun i => i.id == id with
  | none => items
  | some it =>
    let n := max 0 n0
    updateItem items id fun i => { i with count := min n (max 1 it.target) }

/-- The "Set target" action (source lines 588-592); `t0` is the
already-floored numeric value of the prompt. -/
def setTarget (items : List Item) (id : String) (t0 : Int) : List Item :=
  match items.find? fun i => i.id == id with
  | none => items
  | some it =>
    let t := max 1 t0
    let newCount := min it.count t
    updateItem items id fun i => { i with target := t, count := newCount }

/-- `addItem` (source lines 405-417); `newId` stands for the generated
`makeId()` value. -/
def addItem (items : List Item) (newId title : String) (p : Period) (now : Int) : List Item :=
  let t := title.trim
  let it : Item :=
    { id := newId
      title := if t = "" then "Untitled" else t
      period := p
      count := 0
      target := 1
      periodKey := periodKey p now
      streak := 0
      bestStreak := 0 }
  it :: items

/-- `increment` at the component level: the source's `increment` only
calls `setItems` and never touches `sectionStreaks`. -/
def incrementS (s : AppState) (id : String) : AppState :=
  { s with items := increment s.items id }

/-- `decrement` at the component level. -/
def decrementS (s : AppState) (id : String) : AppState :=
  { s with items := decrement s.items id }

/-! ### Live preview (source lines 865-897) -/

/-- `hasDaily`/`hasWeekly`/`hasMonthly` (source lines 866-868). -/
def hasKind (p : Period) (items : List Item) : Bool :=
  items.any fun i => i.period == p

/-- `dailyDone`/`weeklyDone`/`monthlyDone` (source lines 869-871). -/
def kindDone (p : Period) (items : List Item) : Bool :=
  hasKind p items &&
    (items.filter fun i => i.period == p).all fun i => decide (max 1 i.target ≤ i.count)

/-- The displayed preview streak `streakDisplay` of the section headers
(source lines 876, 884, 892): a pure function of the current items and
the stored streak record; it mutates neither. -/
def streakDisplay (p : Period) (items : List Item) (ss : SectionStreaks) : Int :=
  ss.cur p + (if kindDone p items then 1 else 0)

/-- The counter-collection invariant of the spec's data model, as a
decidable check: `0 ≤ progress ≤ target` and `target ≥ 1` for every
counter. -/
def invB (items : List Item) : Bool :=
  items.all fun i => decide (0 ≤ i.count ∧ i.count ≤ i.target ∧ 1 ≤ i.target)

/-! ### ISO-week notions used to state the weekly-key claim -/

/-- ISO day of week (Monday=1 .. Sunday=7) of a day number; day 0
(1970-01-01) is a Thursday, so this is `(n+3) % 7 + 1`. -/
def isoDayOfWeek (n : Int) : Int := (n + 3) % 7 + 1

/-- The Thursday of the (Monday-to-Sunday) week containing day `n`.  Two
instants fall in the same local ISO week iff they share this Thursday. -/
def thursdayOf (n : Int) : Int := n + (4 - isoDayOfWeek n)

/-- Decimal digit list of a natural number, most significant first;
proved below to agree with core's `Nat.toDigitsCore`, which underlies the
`toString` used by the period-key template strings. -/
def natDigits (n : Nat) : List Char :=
  if n < 10 then [Nat.digitChar n]
  else natDigits (n / 10) ++ [Nat.digitChar (n % 10)]
decreasing_by omega

/-! ### Concrete data used by the witness theorems -/

def c2State : AppState :=
  { items := [{ id := "a", title := "t", period := .daily, count := 1, target := 1,
                periodKey := "old", streak := 0, bestStreak := 0 }]
    streaks := { daily := 2, weekly := 0, monthly := 0,
                 bestDaily := 2, bestWeekly := 0, bestMonthly := 0 } }

def c3State : AppState :=
  { items := [{ id := "a", title := "t", period := .daily, count := 1, target := 2,
                periodKey := "old", streak := 0, bestStreak := 0 },
              { id := "b", title := "u", period := .daily, count := 0, target := 1,
                periodKey := "1970-01-01", streak := 0, bestStreak := 0 }]
    streaks := { daily := 4, weekly := 0, monthly := 0,
                 bestDaily := 4, bestWeekly := 0, bestMonthly := 0 } }

def c4State : AppState :=
  { items := [{ id := "w", title := "t", period := .weekly, count := 0, target := 1,
                periodKey := "old", streak := 0, bestStreak := 0 }]
    streaks := { daily := 3, weekly := 1, monthly := 0,
                 bestDaily := 5, bestWeekly := 1, bestMonthly := 0 } }

def c5Items : List Item :=
  [{ id := "a", title := "t", period := .daily, count := 2, target := 2,
     periodKey := "k", streak := 0, bestStreak := 0 }]

def c5Streaks : SectionStreaks :=
  { daily := 2, weekly := 0, monthly := 0, bestDaily := 2, bestWeekly := 0, bestMonthly := 0 }

def c7State : AppState :=
  { items := [{ id := "a", title := "t", period := .daily, count := 0, target := 3,
                periodKey := "old", streak := 0, bestStreak := 0 }]
    streaks := { daily := 4, weekly := 0, monthly := 0,
                 bestDaily := 4, bestWeekly := 0, bestMonthly := 0 } }

def c7Raw : RawStreaks :=
  { daily := some 1, weekly := none, monthly := some 0,
    bestDaily := some 4, bestWeekly := none, bestMonthly := some 0 }

def c9State : AppState :=
  { items := [{ id := "a", title := "t", period := .daily, count := 1, target := 2,
                periodKey := "k", streak := 0, bestStreak := 0 }]
    streaks := { daily := 7, weekly := 0, monthly := 0,
                 bestDaily := 7, bestWeekly := 0, bestMonthly := 0 } }

def c10State : AppState :=
  { items := [{ id := "a", title := "t", period := .daily, count := 1, target := 3,
                periodKey := "k", streak := 0, bestStreak := 0 },
              { id := "b", title := "u", period := .weekly, count := 0, target := 1,
                periodKey := "w", streak := 0, bestStreak := 0 }]
    streaks := { daily := 1, weekly := 2, monthly := 0,
                 bestDaily := 1, bestWeekly := 2, bestMonthly := 0 } }

def c6Items : List Item :=
  [{ id := "a", title := "t", period := .daily, count := 3, target := 3,
     periodKey := "k", streak := 0, bestStreak := 0 }]

/-! ### Basic rollover lemmas -/

theorem resetStale_period (now : Int) (it : Item) :
    (resetStale now it).period = it.period := by
  simp only [resetStale]
  split <;> rfl

theorem resetStale_periodKey (now : Int) (it : Item) :
    (resetStale now it).periodKey = periodKey it.period now := by
  simp only [resetStale]
  split
  · rfl
  · next h => exact (not_ne_iff.mp h).symm

theorem boundaryB_map_resetStale (p : Period) (now : Int) (items : List Item) :
    boundaryB p now (items.map (resetStale now)) = false := by
  simp only [boundaryB, List.any_map, List.any_eq_false, Function.comp]
  intro x _
  simp only [Bool.and_eq_true, beq_iff_eq, bne_iff_ne, ne_eq, not_and, not_not,
    resetStale_period, resetStale_periodKey]
  intro hper
  rw [hper]

theorem rollover_of_not_boundary (now : Int) (s : AppState)
    (h : ∀ p, boundaryB p now s.items = false) :
    rollover now s = s := by
  simp [rollover, h Period.daily, h Period.weekly, h Period.monthly]

/-- Explicit description of `rollover` when at least one kind has a
boundary: completeness is evaluated on the pre-reset items, and every
stale item is reset. -/
theorem rollover_of_boundary (now : Int) (s : AppState) (q : Period)
    (hq : boundaryB q now s.items = true) :
    rollover now s =
      { items := s.items.map (resetStale now)
        streaks :=
          { daily :=
              if boundaryB .daily now s.items then
                (if allDone .daily s.items then s.streaks.daily + 1 else 0)
              else s.streaks.daily
            weekly :=
              if boundaryB .weekly now s.items then
                (if allDone .weekly s.items then s.streaks.weekly + 1 else 0)
              else s.streaks.weekly
            monthly :=
              if boundaryB .monthly now s.items then
                (if allDone .monthly s.items then s.streaks.monthly + 1 else 0)
              else s.streaks.monthly
            bestDaily :=
              if boundaryB .daily now s.items then
                max s.streaks.bestDaily
                  (if allDone .daily s.items then s.streaks.daily + 1 else 0)
              else s.streaks.bestDaily
            bestWeekly :=
              if boundaryB .weekly now s.items then
                max s.streaks.bestWeekly
                  (if allDone .weekly s.items then s.streaks.weekly + 1 else 0)
              else s.streaks.bestWeekly
            bestMonthly :=
              if boundaryB .monthly now s.items then
                max s.streaks.bestMonthly
                  (if allDone .monthly s.items then s.streaks.monthly + 1 else 0)
              else s.streaks.bestMonthly } } := by
  cases hd : boundaryB .daily now s.items <;>
    cases hw : boundaryB .weekly now s.items <;>
      cases hm : boundaryB .monthly now s.items <;>
        simp_all [rollover] <;> cases q <;> simp_all

theorem boundaryB_eq_true_of_ne_false {p : Period} {now : Int} {items : List Item}
    (h : ¬boundaryB p now items = false) : boundaryB p now items = true := by
  revert h
  cases boundaryB p now items <;> simp

/-- C1: invoking the rollover check twice with the same instant `now` and
no intervening mutation yields, after the second invocation, exactly the
counter collection and streak record produced by the first invocation. -/
theorem rollover_idempotent (now : Int) (s : AppState) :
    rollover now (rollover now s) = rollover now s := by
  by_cases h : ∀ p, boundaryB p now s.items = false
  · rw [rollover_of_not_boundary now s h, rollover_of_not_boundary now s h]
  · push_neg at h
    obtain ⟨q, hq⟩ := h
    rw [rollover_of_boundary now s q (boundaryB_eq_true_of_ne_false hq)]
    exact rollover_of_not_boundary now _ fun p => boundaryB_map_resetStale p now s.items

/-- C2: if a period kind's group was complete at the moment a boundary is
detected for it, one rollover invocation increases that kind's `current`
streak by exactly 1 (regardless of the stored stale period keys, i.e. of
how many real-world periods elapsed) and applies the boundary recording
for that kind exactly once: `best` becomes `max best (current + 1)`. -/
theorem rollover_single_increment (now : Int) (s : AppState) (p : Period)
    (hb : boundaryB p now s.items = true) (hd : allDone p s.items = true) :
    (rollover now s).streaks.cur p = s.streaks.cur p + 1 ∧
    (rollover now s).streaks.best p = max (s.streaks.best p) (s.streaks.cur p + 1) := by
  rw [rollover_of_boundary now s p hb]
  cases p <;> simp_all [SectionStreaks.cur, SectionStreaks.best]

theorem rollover_single_increment_witness :
    (rollover 0 c2State).streaks.cur Period.daily = c2State.streaks.cur Period.daily + 1 ∧
    (rollover 0 c2State).streaks.best Period.daily =
      max (c2State.streaks.best Period.daily) (c2State.streaks.cur Period.daily + 1) :=
  rollover_single_increment 0 c2State Period.daily (by decide) (by decide)

/-- C3: when a boundary is detected for a kind, group completeness is
evaluated on the items as they stood before any reset, and every counter
whose stored key differs from the current key is reset to progress 0 with
the current key while counters already on the current key are unchanged. -/
theorem rollover_pre_reset_eval (now : Int) (s : AppState) (p : Period)
    (hb : boundaryB p now s.items = true) :
    ((rollover now s).streaks.cur p =
        if allDone p s.items then s.streaks.cur p + 1 else 0) ∧
    (rollover now s).items =
      s.items.map fun it =>
        if periodKey it.period now = it.periodKey then it
        else { it with periodKey := periodKey it.period now, count := 0 } := by
  rw [rollover_of_boundary now s p hb]
  constructor
  · cases p <;> simp_all [SectionStreaks.cur]
  · have hfun : resetStale now = fun it =>
        if periodKey it.period now = it.periodKey then it
        else { it with periodKey := periodKey it.period now, count := 0 } := by
      funext it
      by_cases hk : periodKey it.period now = it.periodKey <;> simp [resetStale, hk]
    rw [hfun]

theorem rollover_pre_reset_eval_witness :
    ((rollover 0 c3State).streaks.cur Period.daily =
        if allDone Period.daily c3State.items then c3State.streaks.cur Period.daily + 1 else 0) ∧
    (rollover 0 c3State).items =
      c3State.items.map fun it =>
        if periodKey it.period 0 = it.periodKey then it
        else { it with periodKey := periodKey it.period 0, count := 0 } :=
  rollover_pre_reset_eval 0 c3State Period.daily (by decide)

/-- C4: a period kind with zero counters never has a boundary signalled
and its StreakRecord (both `current` and `best`) is unchanged by a
rollover invocation, for any instant. -/
theorem rollover_empty_group (now : Int) (s : AppState) (p : Period)
    (h : ∀ i ∈ s.items, i.period ≠ p) :
    boundaryB p now s.items = false ∧
    (rollover now s).streaks.cur p = s.streaks.cur p ∧
    (rollover now s).streaks.best p = s.streaks.best p := by
  have hb : boundaryB p now s.items = false := by
    simp only [boundaryB, List.any_eq_false]
    intro i hi
    simp [h i hi]
  refine ⟨hb, ?_⟩
  by_cases hall : ∀ q, boundaryB q now s.items = false
  · rw [rollover_of_not_boundary now s hall]
    exact ⟨rfl, rfl⟩
  · push_neg at hall
    obtain ⟨q, hq⟩ := hall
    rw [rollover_of_boundary now s q (boundaryB_eq_true_of_ne_false hq)]
    cases p <;> simp_all [SectionStreaks.cur, SectionStreaks.best]

theorem rollover_empty_group_witness :
    boundaryB Period.daily 0 c4State.items = false ∧
    (rollover 0 c4State).streaks.cur Period.daily = c4State.streaks.cur Period.daily ∧
    (rollover 0 c4State).streaks.best Period.daily = c4State.streaks.best Period.daily :=
  rollover_empty_group 0 c4State Period.daily (by decide)

/-- A kind with no boundary keeps both streak fields unchanged. -/
theorem rollover_kind_unchanged (now : Int) (s : AppState) (p : Period)
    (hb : boundaryB p now s.items = false) :
    (rollover now s).streaks.cur p = s.streaks.cur p ∧
    (rollover now s).streaks.best p = s.streaks.best p := by
  by_cases hall : ∀ q, boundaryB q now s.items = false
  · rw [rollover_of_not_boundary now s hall]
    exact ⟨rfl, rfl⟩
  · push_neg at hall
    obtain ⟨q, hq⟩ := hall
    rw [rollover_of_boundary now s q (boundaryB_eq_true_of_ne_false hq)]
    cases p <;> simp_all [SectionStreaks.cur, SectionStreaks.best]

/-- C5: the displayed preview streak equals the stored `current` streak
plus 1 when the kind's group is non-empty and every member currently has
progress at or above its target, and equals the stored `current` streak
otherwise.  (`streakDisplay` is a pure function of the item list and the
streak record, so computing it mutates neither.)  The hypothesis
`1 ≤ target` is the data-model invariant every store operation maintains. -/
theorem preview_streak (p : Period) (items : List Item) (ss : SectionStreaks)
    (htgt : ∀ i ∈ items, 1 ≤ i.target) :
    streakDisplay p items ss =
      ss.cur p +
        (if (∃ i ∈ items, i.period = p) ∧ (∀ i ∈ items, i.period = p → i.target ≤ i.count)
         then 1 else 0) := by
  unfold streakDisplay
  have hiff : (kindDone p items = true) ↔
      ((∃ i ∈ items, i.period = p) ∧ (∀ i ∈ items, i.period = p → i.target ≤ i.count)) := by
    simp only [kindDone, hasKind, Bool.and_eq_true, List.any_eq_true, List.all_eq_true,
      List.mem_filter, beq_iff_eq, decide_eq_true_eq]
    constructor
    · rintro ⟨⟨i, hi, hip⟩, hall⟩
      refine ⟨⟨i, hi, hip⟩, fun j hj hjp => ?_⟩
      have h2 := hall j ⟨hj, by simp [hjp]⟩
      have h1 := htgt j hj
      omega
    · rintro ⟨⟨i, hi, hip⟩, hall⟩
      refine ⟨⟨i, hi, hip⟩, fun j hj => ?_⟩
      have h1 := htgt j hj.1
      have h2 := hall j hj.1 (by simpa using hj.2)
      omega
  by_cases hc : (∃ i ∈ items, i.period = p) ∧ (∀ i ∈ items, i.period = p → i.target ≤ i.count)
  · rw [if_pos (hiff.mpr hc), if_pos hc]
  · rw [if_neg (fun h => hc (hiff.mp h)), if_neg hc]

theorem preview_streak_witness :
    streakDisplay Period.daily c5Items c5Streaks = 3 := by
  have h := preview_streak Period.daily c5Items c5Streaks (by decide)
  rw [h]
  decide

/-- C7 counterexample: `loadSectionStreaks` copies stored values with `?? 0`
defaults and does not enforce `best ≥ current`, so after loading the stored
record `{daily: 5, bestDaily: 2, ...}` the invariant is violated. -/
theorem streak_best_load_counterexample :
    ¬((loadSectionStreaks
        { daily := some 5, weekly := some 0, monthly := some 0,
          bestDaily := some 2, bestWeekly := some 0, bestMonthly := some 0 }).cur Period.daily ≤
      (loadSectionStreaks
        { daily := some 5, weekly := some 0, monthly := some 0,
          bestDaily := some 2, bestWeekly := some 0, bestMonthly := some 0 }).best
        Period.daily) := by
  decide

/-- C7 amended: whenever a rollover changes a kind's `current` streak
(exactly the kinds with a detected boundary), `best` is immediately set to
`max best current`; kinds without a boundary keep both fields unchanged,
so rollover preserves `best ≥ current`; and loading preserves
`best ≥ current` whenever the stored (zero-defaulted) values satisfy it —
but the load itself does not enforce the inequality on corrupt data. -/
theorem streak_best_invariant :
    (∀ (now : Int) (s : AppState) (p : Period), boundaryB p now s.items = true →
      (rollover now s).streaks.best p =
        max (s.streaks.best p) ((rollover now s).streaks.cur p)) ∧
    (∀ (now : Int) (s : AppState) (p : Period), boundaryB p now s.items = false →
      (rollover now s).streaks.cur p = s.streaks.cur p ∧
      (rollover now s).streaks.best p = s.streaks.best p) ∧
    (∀ (now : Int) (s : AppState), (∀ p, s.streaks.cur p ≤ s.streaks.best p) →
      ∀ p, (rollover now s).streaks.cur p ≤ (rollover now s).streaks.best p) ∧
    (∀ r : RawStreaks, (∀ p, (r.cur p).getD 0 ≤ (r.best p).getD 0) →
      ∀ p, (loadSectionStreaks r).cur p ≤ (loadSectionStreaks r).best p) := by
  refine ⟨?_, ?_, ?_, ?_⟩
  · intro now s p hb
    rw [rollover_of_boundary now s p hb]
    cases p <;> simp_all [SectionStreaks.cur, SectionStreaks.best]
  · intro now s p hb
    exact rollover_kind_unchanged now s p hb
  · intro now s hinv p
    by_cases hb : boundaryB p now s.items = false
    · obtain ⟨h1, h2⟩ := rollover_kind_unchanged now s p hb
      rw [h1, h2]
      exact hinv p
    · rw [rollover_of_boundary now s p (boundaryB_eq_true_of_ne_false hb)]
      cases p <;> simp_all [SectionStreaks.cur, SectionStreaks.best, le_max_iff]
  · intro r h p
    have hp := h p
    cases p <;>
      simp_all [RawStreaks.cur, RawStreaks.best, SectionStreaks.cur, SectionStreaks.best,
        loadSectionStreaks]

theorem streak_best_invariant_witness :
    ((rollover 0 c7State).streaks.best Period.daily =
      max (c7State.streaks.best Period.daily) ((rollover 0 c7State).streaks.cur Period.daily)) ∧
    ((loadSectionStreaks c7Raw).cur Period.weekly ≤ (loadSectionStreaks c7Raw).best Period.weekly) :=
  ⟨streak_best_invariant.1 0 c7State Period.daily (by decide),
   streak_best_invariant.2.2.2 c7Raw (by intro p; cases p <;> decide) Period.weekly⟩

/-- C9: `increment` and `decrement` on an id that matches no counter
leave the counter collection and the streak record unchanged (the source
returns early on a failed lookup; no error is signalled — both functions
are total). -/
theorem unknown_id_noop (s : AppState) (id : String)
    (h : ∀ i ∈ s.items, i.id ≠ id) :
    incrementS s id = s ∧ decrementS s id = s := by
  have hf : s.items.find? (fun i => i.id == id) = none := by
    rw [List.find?_eq_none]
    intro i hi
    simp [h i hi]
  constructor <;> simp [incrementS, decrementS, increment, decrement, hf]

theorem unknown_id_noop_witness :
    incrementS c9State "z" = c9State ∧ decrementS c9State "z" = c9State :=
  unknown_id_noop c9State "z" (by decide)

/-- C10: `increment` on the id of an existing counter changes at most that
counter's `count` field: every other field of every counter (id, title,
period, target, periodKey, streak, bestStreak), the length and order of
the collection, and the section-streak record are unchanged; counters
whose id differs from the given id are unchanged entirely. -/
theorem increment_frame (s : AppState) (id : String)
    (_hex : ∃ i ∈ s.items, i.id = id) :
    (incrementS s id).streaks = s.streaks ∧
    (incrementS s id).items.length = s.items.length ∧
    ∀ (k : Nat) (hk : k < s.items.length) (hk2 : k < (incrementS s id).items.length),
      ((incrementS s id).items.get ⟨k, hk2⟩).id = (s.items.get ⟨k, hk⟩).id ∧
      ((incrementS s id).items.get ⟨k, hk2⟩).title = (s.items.get ⟨k, hk⟩).title ∧
      ((incrementS s id).items.get ⟨k, hk2⟩).period = (s.items.get ⟨k, hk⟩).period ∧
      ((incrementS s id).items.get ⟨k, hk2⟩).target = (s.items.get ⟨k, hk⟩).target ∧
      ((incrementS s id).items.get ⟨k, hk2⟩).periodKey = (s.items.get ⟨k, hk⟩).periodKey ∧
      ((incrementS s id).items.get ⟨k, hk2⟩).streak = (s.items.get ⟨k, hk⟩).streak ∧
      ((incrementS s id).items.get ⟨k, hk2⟩).bestStreak = (s.items.get ⟨k, hk⟩).bestStreak ∧
      ((s.items.get ⟨k, hk⟩).id ≠ id →
        (incrementS s id).items.get ⟨k, hk2⟩ = s.items.get ⟨k, hk⟩) := by
  refine ⟨rfl, ?_, ?_⟩
  · rcases hf : s.items.find? (fun i => i.id == id) with _ | it <;>
      simp [incrementS, increment, hf, updateItem]
  · intro k hk hk2
    rcases hf : s.items.find? (fun i => i.id == id) with _ | it
    · simp [incrementS, increment, hf]
    · simp only [incrementS, increment, hf, updateItem, List.get_eq_getElem, List.getElem_map]
      by_cases hid : (s.items.get ⟨k, hk⟩).id = id
      · simp_all [List.get_eq_getElem]
      · simp_all [List.get_eq_getElem]

theorem invB_iff (items : List Item) :
    invB items = true ↔ ∀ i ∈ items, 0 ≤ i.count ∧ i.count ≤ i.target ∧ 1 ≤ i.target := by
  simp [invB]

/-- With pairwise-distinct ids (the data model declares `id` unique), the
item found by `find?` is the only one matching the id. -/
theorem find_id_unique {items : List Item} {id : String} {it : Item}
    (hnd : (items.map Item.id).Nodup)
    (hf : items.find? (fun i => i.id == id) = some it) :
    it ∈ items ∧ it.id = id ∧ ∀ j ∈ items, j.id = id → j = it := by
  have hmem := List.mem_of_find?_eq_some hf
  have hid : it.id = id := by simpa using List.find?_some hf
  refine ⟨hmem, hid, fun j hj hjid => ?_⟩
  exact List.inj_on_of_nodup_map hnd hj hmem (by rw [hjid, hid])

/-- C6 counterexample: the claim includes loading persisted state, but the
v3 load normalisation only clamps `count` below by 0 and `target` below
by 1; a stored item with `count = 5, target = 3` is loaded unchanged, so
`progress ≤ target` fails after loading. -/
theorem counter_clamp_load_counterexample :
    invB (loadItemsV3 0
      [{ id := "a", title := "t", period := .daily, count := 5, target := 3,
         periodKey := some "k", streak := some 0, bestStreak := some 0 }]) = false := by
  decide

/-- C6 amended: for collections with unique ids, `0 ≤ progress ≤ target`
(with `target ≥ 1`) is preserved by increment, decrement, set-count,
set-target and creation, with out-of-range adjustments silently clamped;
loading persisted state only enforces `progress ≥ 0` and `target ≥ 1`
(stored progress above target is kept as-is). -/
theorem counter_clamp_invariant :
    (∀ (items : List Item) (id newId title : String) (n0 t0 : Int) (p : Period) (now : Int),
      (items.map Item.id).Nodup → invB items = true →
      invB (increment items id) = true ∧
      invB (decrement items id) = true ∧
      invB (setCount items id n0) = true ∧
      invB (setTarget items id t0) = true ∧
      invB (addItem items newId title p now) = true) ∧
    (∀ (now : Int) (arr : List RawItem),
      ∀ i ∈ loadItemsV3 now arr, 0 ≤ i.count ∧ 1 ≤ i.target) := by
  constructor
  · intro items id newId title n0 t0 p now hnd hinv
    rw [invB_iff] at hinv
    have hmap : ∀ f : Item → Item,
        (∀ j ∈ items, j.id = id → 0 ≤ (f j).count ∧ (f j).count ≤ (f j).target ∧ 1 ≤ (f j).target) →
        invB (updateItem items id f) = true := by
      intro f hfok
      rw [invB_iff]
      intro i hi
      rw [updateItem, List.mem_map] at hi
      obtain ⟨j, hj, rfl⟩ := hi
      by_cases hjid : j.id = id
      · simpa [hjid] using hfok j hj hjid
      · simpa [hjid] using hinv j hj
    refine ⟨?_, ?_, ?_, ?_, ?_⟩
    · rcases hf : items.find? (fun i => i.id == id) with _ | it
      · simpa [increment, hf, invB_iff] using hinv
      · obtain ⟨hmem, _, huni⟩ := find_id_unique hnd hf
        obtain ⟨h0, h1, h2⟩ := hinv it hmem
        simp only [increment, hf]
        apply hmap
        intro j hj hjid
        rw [huni j hj hjid]
        simp only []
        refine ⟨?_, ?_, h2⟩ <;> omega
    · rcases hf : items.find? (fun i => i.id == id) with _ | it
      · simpa [decrement, hf, invB_iff] using hinv
      · obtain ⟨hmem, _, huni⟩ := find_id_unique hnd hf
        obtain ⟨h0, h1, h2⟩ := hinv it hmem
        simp only [decrement, hf]
        apply hmap
        intro j hj hjid
        rw [huni j hj hjid]
        simp only []
        refine ⟨?_, ?_, h2⟩ <;> omega
    · rcases hf : items.find? (fun i => i.id == id) with _ | it
      · simpa [setCount, hf, invB_iff] using hinv
      · obtain ⟨hmem, _, huni⟩ := find_id_unique hnd hf
        obtain ⟨h0, h1, h2⟩ := hinv it hmem
        simp only [setCount, hf]
        apply hmap
        intro j hj hjid
        rw [huni j hj hjid]
        simp only []
        refine ⟨?_, ?_, h2⟩ <;> omega
    · rcases hf : items.find? (fun i => i.id == id) with _ | it
      · simpa [setTarget, hf, invB_iff] using hinv
      · obtain ⟨hmem, _, _⟩ := find_id_unique hnd hf
        obtain ⟨h0, h1, h2⟩ := hinv it hmem
        simp only [setTarget, hf]
        apply hmap
        intro j hj _
        refine ⟨?_, ?_, ?_⟩ <;> simp <;> omega
    · rw [invB_iff]
      intro i hi
      rw [addItem] at hi
      rcases List.mem_cons.mp hi with rfl | hmem
      · refine ⟨?_, ?_, ?_⟩ <;> simp
      · exact hinv i hmem
  · intro now arr i hi
    rw [loadItemsV3, List.mem_map] at hi
    obtain ⟨r, _, rfl⟩ := hi
    constructor <;> simp

theorem counter_clamp_invariant_witness :
    invB (increment c6Items "a") = true ∧
    invB (setTarget c6Items "a" (-7)) = true :=
  ⟨(counter_clamp_invariant.1 c6Items "a" "n" "u" 0 (-7) Period.daily 0
      (by decide) (by decide)).1,
   (counter_clamp_invariant.1 c6Items "a" "n" "u" 0 (-7) Period.daily 0
      (by decide) (by decide)).2.2.2.1⟩

theorem increment_frame_witness :
    (incrementS c10State "a").streaks = c10State.streaks ∧
    (incrementS c10State "a").items.length = c10State.items.length :=
  ⟨(increment_frame c10State "a" ⟨c10State.items.head (by decide), by constructor <;> decide⟩).1,
   (increment_frame c10State "a" ⟨c10State.items.head (by decide), by constructor <;> decide⟩).2.1⟩

/-! ### Decimal rendering: injectivity of the key strings -/

theorem natDigits_lt {n : Nat} (h : n < 10) : natDigits n = [Nat.digitChar n] := by
  rw [natDigits.eq_def, if_pos h]

theorem natDigits_ge {n : Nat} (h : 10 ≤ n) :
    natDigits n = natDigits (n / 10) ++ [Nat.digitChar (n % 10)] := by
  rw [natDigits.eq_def, if_neg (by omega)]

theorem natDigits_ne_nil (n : Nat) : natDigits n ≠ [] := by
  by_cases h : n < 10
  · rw [natDigits_lt h]
    simp
  · rw [natDigits_ge (by omega)]
    simp

theorem digitChar_isDigit : ∀ k, k < 10 → (Nat.digitChar k).isDigit = true := by decide

theorem digitChar_injOn :
    ∀ a, a < 10 → ∀ b, b < 10 → Nat.digitChar a = Nat.digitChar b → a = b := by decide

theorem natDigits_isDigit (n : Nat) : ∀ c ∈ natDigits n, c.isDigit = true := by
  induction n using Nat.strong_induction_on with
  | _ n ih =>
    intro c hc
    by_cases h : n < 10
    · rw [natDigits_lt h] at hc
      simp at hc
      rw [hc]
      exact digitChar_isDigit n h
    · rw [natDigits_ge (by omega)] at hc
      rcases List.mem_append.mp hc with h1 | h2
      · exact ih (n / 10) (by omega) c h1
      · simp at h2
        rw [h2]
        exact digitChar_isDigit (n % 10) (by omega)

theorem natDigits_inj : ∀ m, ∀ n, natDigits m = natDigits n → m = n := by
  intro m
  induction m using Nat.strong_induction_on with
  | _ m ih =>
    intro n h
    by_cases hm : m < 10 <;> by_cases hn : n < 10
    · rw [natDigits_lt hm, natDigits_lt hn] at h
      simp at h
      exact digitChar_injOn m hm n hn h
    · rw [natDigits_lt hm, natDigits_ge (by omega)] at h
      have h1 := congrArg List.length h
      simp at h1
      exact (natDigits_ne_nil (n / 10) h1).elim
    · rw [natDigits_ge (by omega), natDigits_lt hn] at h
      have h1 := congrArg List.length h
      simp at h1
      exact (natDigits_ne_nil (m / 10) h1).elim
    · rw [natDigits_ge (show 10 ≤ m by omega), natDigits_ge (show 10 ≤ n by omega)] at h
      obtain ⟨h1, h2⟩ := List.append_inj' h (by simp)
      have e1 := ih (m / 10) (by omega) (n / 10) h1
      simp at h2
      have e2 := digitChar_injOn (m % 10) (by omega) (n % 10) (by omega) h2
      omega

theorem toDigitsCore_eq_natDigits :
    ∀ (fuel n : Nat) (ds : List Char), n < fuel →
      Nat.toDigitsCore 10 fuel n ds = natDigits n ++ ds := by
  intro fuel
  induction fuel with
  | zero => omega
  | succ f ih =>
    intro n ds h
    have hstep : Nat.toDigitsCore 10 (f + 1) n ds =
        if n / 10 = 0 then Nat.digitChar (n % 10) :: ds
        else Nat.toDigitsCore 10 f (n / 10) (Nat.digitChar (n % 10) :: ds) := rfl
    rw [hstep]
    by_cases h0 : n / 10 = 0
    · rw [if_pos h0]
      have hn : n < 10 := by omega
      rw [natDigits_lt hn, Nat.mod_eq_of_lt hn]
      rfl
    · rw [if_neg h0]
      have hn10 : 10 ≤ n := by omega
      have hlt : n / 10 < f := by omega
      rw [ih (n / 10) (Nat.digitChar (n % 10) :: ds) hlt]
      rw [show natDigits n = natDigits (n / 10) ++ [Nat.digitChar (n % 10)] from natDigits_ge hn10]
      simp

theorem repr_data_eq_natDigits (n : Nat) : (Nat.repr n).data = natDigits n := by
  have h1 : Nat.repr n = (Nat.toDigitsCore 10 (n + 1) n []).asString := rfl
  rw [h1, toDigitsCore_eq_natDigits (n + 1) n [] (by omega)]
  simp [List.asString]

theorem nat_repr_inj {m n : Nat} (h : Nat.repr m = Nat.repr n) : m = n := by
  apply natDigits_inj
  rw [← repr_data_eq_natDigits, ← repr_data_eq_natDigits, h]

theorem data_append (s t : String) : (s ++ t).data = s.data ++ t.data := by
  cases s
  cases t
  rfl

theorem toString_ofNat_data (m : Nat) : (toString (Int.ofNat m)).data = natDigits m :=
  repr_data_eq_natDigits m

theorem toString_negSucc_data (m : Nat) :
    (toString (Int.negSucc m)).data = '-' :: natDigits (m + 1) := by
  have h1 : toString (Int.negSucc m) = "-" ++ Nat.repr (m + 1) := rfl
  rw [h1, data_append, repr_data_eq_natDigits]
  rfl

theorem mem_toString_int {z : Int} {c : Char} (hc : c ∈ (toString z).data) :
    c.isDigit = true ∨ c = '-' := by
  cases z with
  | ofNat m =>
    rw [toString_ofNat_data] at hc
    exact Or.inl (natDigits_isDigit m c hc)
  | negSucc m =>
    rw [toString_negSucc_data] at hc
    rcases List.mem_cons.mp hc with h | h
    · exact Or.inr h
    · exact Or.inl (natDigits_isDigit (m + 1) c h)

theorem toString_int_inj {a b : Int} (h : toString a = toString b) : a = b := by
  have hd := congrArg String.data h
  cases a with
  | ofNat m =>
    cases b with
    | ofNat k =>
      rw [toString_ofNat_data, toString_ofNat_data] at hd
      exact congrArg Int.ofNat (natDigits_inj m k hd)
    | negSucc k =>
      rw [toString_ofNat_data, toString_negSucc_data] at hd
      have : '-' ∈ natDigits m := by
        rw [hd]
        exact List.mem_cons_self _ _
      have := natDigits_isDigit m '-' this
      simp at this
  | negSucc m =>
    cases b with
    | ofNat k =>
      rw [toString_negSucc_data, toString_ofNat_data] at hd
      have : '-' ∈ natDigits k := by
        rw [← hd]
        exact List.mem_cons_self _ _
      have := natDigits_isDigit k '-' this
      simp at this
    | negSucc k =>
      rw [toString_negSucc_data, toString_negSucc_data] at hd
      simp at hd
      exact congrArg Int.negSucc (Nat.succ_injective (natDigits_inj (m + 1) (k + 1) hd))

theorem append_sep_inj {sep : Char} :
    ∀ (a1 a2 b1 b2 : List Char), sep ∉ a1 → sep ∉ a2 →
      a1 ++ sep :: b1 = a2 ++ sep :: b2 → a1 = a2 ∧ b1 = b2 := by
  intro a1
  induction a1 with
  | nil =>
    intro a2 b1 b2 _ h2 h
    cases a2 with
    | nil => simpa using h
    | cons c t =>
      simp at h
      exact absurd (h.1 ▸ List.mem_cons_self c t) h2
  | cons c t ih =>
    intro a2 b1 b2 h1 h2 h
    cases a2 with
    | nil =>
      simp at h
      exact absurd (h.1 ▸ List.mem_cons_self c t) h1
    | cons c2 t2 =>
      simp at h
      obtain ⟨rfl, h'⟩ := h
      have hr := ih t2 b1 b2 (fun hm => h1 (List.mem_cons_of_mem _ hm))
        (fun hm => h2 (List.mem_cons_of_mem _ hm)) h'
      exact ⟨by rw [hr.1], hr.2⟩

theorem not_W_mem_int_dash (y : Int) : 'W' ∉ (toString y).data ++ ['-'] := by
  intro hm
  rcases List.mem_append.mp hm with h | h
  · rcases mem_toString_int h with h1 | h1 <;> simp at h1
  · simp at h

theorem label_inj {y1 w1 y2 w2 : Int}
    (h : toString y1 ++ "-W" ++ toString w1 = toString y2 ++ "-W" ++ toString w2) :
    y1 = y2 ∧ w1 = w2 := by
  have hd := congrArg String.data h
  rw [data_append, data_append, data_append, data_append] at hd
  have hW : ("-W" : String).data = ['-', 'W'] := rfl
  rw [hW] at hd
  have hd' : ((toString y1).data ++ ['-']) ++ 'W' :: (toString w1).data =
      ((toString y2).data ++ ['-']) ++ 'W' :: (toString w2).data := by
    simpa [List.append_assoc] using hd
  obtain ⟨hA, hB⟩ := append_sep_inj _ _ _ _ (not_W_mem_int_dash y1) (not_W_mem_int_dash y2) hd'
  refine ⟨toString_int_inj (String.ext (List.append_cancel_right hA)), ?_⟩
  exact toString_int_inj (String.ext hB)

theorem thursdayOf_eq (n : Int) : thursdayOf n = 7 * ((n + 3) / 7) := by
  simp only [thursdayOf, isoDayOfWeek]
  omega

theorem getISOWeek_thursday (n : Int) :
    getISOWeek n =
      toString ((civilFromDays (thursdayOf n)).1) ++ "-W" ++
        toString ((thursdayOf n - daysFromCivil (civilFromDays (thursdayOf n)).1 1 1 + 1 + 6) / 7) := by
  have ht : n + (4 - (if getDay n = 0 then 7 else getDay n)) = thursdayOf n := by
    simp only [getDay, thursdayOf, isoDayOfWeek]
    split <;> omega
  simp only [getISOWeek]
  rw [ht]

theorem getISOWeek_same_week_iff (n1 n2 : Int) :
    getISOWeek n1 = getISOWeek n2 ↔ thursdayOf n1 = thursdayOf n2 := by
  constructor
  · intro h
    rw [getISOWeek_thursday n1, getISOWeek_thursday n2] at h
    obtain ⟨hy, hw⟩ := label_inj h
    rw [hy] at hw
    have ht1 := thursdayOf_eq n1
    have ht2 := thursdayOf_eq n2
    omega
  · intro h
    rw [getISOWeek_thursday n1, getISOWeek_thursday n2, h]

/-- On a host whose UTC offset never changes, `getISOWeekTZ` is exactly
`getISOWeek`: the timestamp difference of two local midnights is then an
exact multiple of 86400000, so the floored quotient is the day
difference. -/
theorem getISOWeekTZ_const (c : Int) (n : Int) :
    getISOWeekTZ (fun _ => c) n = getISOWeek n := by
  have key : ∀ a b : Int, ((a * 86400000 - c) - (b * 86400000 - c)) / 86400000 = a - b := by
    intro a b
    have h : (a * 86400000 - c) - (b * 86400000 - c) = (a - b) * 86400000 := by ring
    rw [h]
    exact Int.mul_ediv_cancel _ (by norm_num)
  simp only [getISOWeekTZ, getISOWeek, key]

/-- On a fixed-offset host the weekly key is the ISO week identifier:
`getISOWeek` returns equal strings iff the two local instants fall in the
same local ISO week (they share the Thursday of their Monday-to-Sunday
week), and distinct strings otherwise; the first days of January
belonging to the prior ISO year's last week receive the prior ISO year's
key (2027-01-01 keys as 2026-W53); and the key is not a plain 7-day
count from the epoch (1970-01-04 and 1970-01-05 lie in the same 7-day
block from the epoch but in different ISO weeks).  This is the behaviour
the spec describes; `weekly_key_dst_bug` shows the program deviates from
it on a DST-observing host. -/
theorem weekly_key_iso_correct :
    (∀ n1 n2 : Int, periodKey Period.weekly n1 = periodKey Period.weekly n2 ↔
      thursdayOf n1 = thursdayOf n2) ∧
    periodKey Period.weekly (daysFromCivil 2027 1 1) = "2026-W53" ∧
    (daysFromCivil 1970 1 4) / 7 = (daysFromCivil 1970 1 5) / 7 ∧
    periodKey Period.weekly (daysFromCivil 1970 1 4) ≠
      periodKey Period.weekly (daysFromCivil 1970 1 5) := by
  refine ⟨fun n1 n2 => ?_, by decide, by decide, by decide⟩
  simp only [periodKey]
  exact getISOWeek_same_week_iff n1 n2

/-- C8: the claim is right about the intent (the source's own comment
says "ISO week number", and the spec demands a key unique per local ISO
week), but the code deviates on a DST-observing host: `days` is
`Math.floor((date - yearStart)/86400000) + 1` on local-midnight
timestamps, and when the week's Thursday is in DST while Jan 1 is not,
the one-hour shortfall lowers the floored quotient by one.  Evaluating
the faithful embedding with Europe/Berlin's 2026 offsets: 2026-03-26 and
2026-04-02 lie in distinct local ISO weeks (their Thursdays differ), yet
both are keyed "2026-W13", while a fixed-offset host keys them
"2026-W13" and "2026-W14" as the claim requires. -/
theorem weekly_key_dst_bug :
    thursdayOf (daysFromCivil 2026 3 26) ≠ thursdayOf (daysFromCivil 2026 4 2) ∧
    getISOWeekTZ berlinOffset2026 (daysFromCivil 2026 3 26) = "2026-W13" ∧
    getISOWeekTZ berlinOffset2026 (daysFromCivil 2026 4 2) = "2026-W13" ∧
    getISOWeek (daysFromCivil 2026 3 26) = "2026-W13" ∧
    getISOWeek (daysFromCivil 2026 4 2) = "2026-W14" := by
  decide

end MHC
